import Mathlib

/-!
# Verification of the mtmq bounded FIFO queue

A shallow embedding of `src/mtmq.c` / `src/mtmq.h` (a fixed-capacity,
mutex-protected circular-buffer message queue) together with proofs of the
specified properties.

Modelling conventions:

* The observable queue state is `struct mtmq` minus the pthread mutex and the
  two condition variables: those objects only synchronize access and carry no
  queue data.  The waiting-thread counters `num_rd` / `num_wr` are kept.
* A `mtmq_t *` handle is an `Option mtmq`; `none` is the NULL pointer.
* C `int` result codes are `Int` constants with the values of the `mtmq.h`
  enum; `errno` values are the usual Linux constants (only their being
  nonzero and mutually distinct matters).
* `mtmq_push` / `mtmq_pop` are embedded for a sequential (single-threaded)
  execution: while the caller sleeps in the wait loop no other thread can
  change the queue, so the loop's predicate is invariant and the loop is
  summarized by its exit value `rc`, which is `0` when the predicate is
  false on entry (the loop body never runs) and otherwise the value
  returned by `pthread_cond_wait` / `pthread_cond_timedwait`, supplied as
  the oracle parameter `wait_rc`.  The result of `pthread_mutex_lock` is the
  oracle parameter `lock_rc`.  `pthread_cond_signal` / broadcast calls do
  not change the queue state and are not represented.
* The `void *data` payload is opaque to the queue; it is modelled as an
  `Int` stand-in for the pointer value, which the queue only stores and
  hands back.
-/

/-- `MTMQ_RC_OK` from the `mtmq.h` result-code enum (declared first, so 0). -/
def MTMQ_RC_OK : Int := 0

/-- `MTMQ_RC_FINALIZED` from the `mtmq.h` result-code enum (value 1). -/
def MTMQ_RC_FINALIZED : Int := 1

/-- `MTMQ_RC_TIMEDOUT` from the `mtmq.h` result-code enum (value 2). -/
def MTMQ_RC_TIMEDOUT : Int := 2

/-- `MTMQ_RC_INTERRUPTED` from the `mtmq.h` result-code enum (value 3). -/
def MTMQ_RC_INTERRUPTED : Int := 3

/-- `MTMQ_RC_ERROR` from the `mtmq.h` result-code enum (value 4). -/
def MTMQ_RC_ERROR : Int := 4

/-- The `ETIMEDOUT` errno value (Linux). -/
def ETIMEDOUT : Int := 110

/-- The `EINTR` errno value (Linux). -/
def EINTR : Int := 4

/-- Queue element, `struct mtmq_elt`: an integer code plus an opaque data
pointer (the pointer value is modelled as an `Int`). -/
structure mtmq_elt where
  code : Int
  data : Int
deriving Repr, DecidableEq

/-- Queue state, `struct mtmq`, without the synchronization objects
(`mtx`, `cond_rd`, `cond_wr`).  `arr` is the elements array of length
`size` allocated alongside the struct. -/
structure mtmq where
  num_rd : Nat
  num_wr : Nat
  fin : Bool
  num : Nat
  first : Nat
  last : Nat
  size : Nat
  arr : List mtmq_elt
deriving Repr, DecidableEq

/-- `calc_abs_timeout`: computes the absolute deadline from the current
monotonic time `(now_sec, now_nsec)` (the result of `clock_gettime`) and a
relative timeout in milliseconds.  The C code stores `timeout_ms` into the
wider `tv_nsec` field (a 64-bit `long` on LP64 platforms) before
multiplying by 10^6, then normalizes.  C `/` and `%` on signed integers
truncate toward zero, hence `Int.tdiv` / `Int.tmod`. -/
def calc_abs_timeout (now_sec now_nsec : Int) (timeout_ms : Int) : Int × Int :=
  let t_nsec : Int := timeout_ms * 1000000
  let nsec : Int := now_nsec + t_nsec
  (now_sec + nsec.tdiv 1000000000, nsec.tmod 1000000000)

/-- `mtmq_create`: allocates and zero-initializes the queue.  The C code
performs no validation of `size`; the only failure paths are `malloc`
returning NULL and `pthread_condattr_setclock` failing, modelled by the
oracle flags `malloc_ok` and `setclock_ok`.  `memset` zeroes every field
and the elements array; `size` is then stored. -/
def mtmq_create (size : Nat) (malloc_ok setclock_ok : Bool) : Option mtmq :=
  if !malloc_ok then none
  else if !setclock_ok then none
  else some { num_rd := 0, num_wr := 0, fin := false, num := 0, first := 0,
              last := 0, size := size, arr := List.replicate size ⟨0, 0⟩ }

/-- `mtmq_destroy`: NULL handle is an error; otherwise the three pthread
destroy calls (writer condvar, reader condvar, mutex, in that order) are
checked, any nonzero result giving `MTMQ_RC_ERROR`; on success the memory
is freed and `MTMQ_RC_OK` returned.  The pthread results are oracles. -/
def mtmq_destroy (q : Option mtmq) (rc_cond_wr rc_cond_rd rc_mtx : Int) : Int :=
  match q with
  | none => MTMQ_RC_ERROR
  | some _ =>
    if rc_cond_wr ≠ 0 then MTMQ_RC_ERROR
    else if rc_cond_rd ≠ 0 then MTMQ_RC_ERROR
    else if rc_mtx ≠ 0 then MTMQ_RC_ERROR
    else MTMQ_RC_OK

/-- `mtmq_push`: returns the result code and the queue state after the
call.  `lock_rc` is the `pthread_mutex_lock` result; `wait_rc` is the exit
value of the wait loop's `rc` when the loop runs (see the module comment:
in a sequential execution the loop predicate `!fin && num == size` cannot
change, so `rc` is `0` exactly when that predicate is false on entry).
`timeout` only selects `pthread_cond_wait` versus `pthread_cond_timedwait`
as the source of `wait_rc` and has no other effect on the state.  The
`num_wr` increment before the wait and decrement after cancel out.  On the
success path the element is written at `last`, `last` advances modulo
`size`, `num` is incremented, and a waiting reader is signalled (no state
effect). -/
def mtmq_push (q : Option mtmq) (code data : Int) (timeout : Int)
    (lock_rc wait_rc : Int) : Int × Option mtmq :=
  match q with
  | none => (MTMQ_RC_ERROR, none)
  | some q0 =>
    if lock_rc ≠ 0 then (MTMQ_RC_ERROR, some q0)
    else
      let q1 : mtmq := { q0 with num_wr := q0.num_wr + 1 }
      let rc : Int := if !q1.fin && q1.num == q1.size then wait_rc else 0
      let q2 : mtmq := { q1 with num_wr := q1.num_wr - 1 }
      if q2.fin then (MTMQ_RC_FINALIZED, some q2)
      else if q2.num < q2.size then
        let q3 : mtmq := { q2 with
          arr := q2.arr.set q2.last ⟨code, data⟩,
          last := if q2.last + 1 < q2.size then q2.last + 1 else 0,
          num := q2.num + 1 }
        (MTMQ_RC_OK, some q3)
      else if rc = ETIMEDOUT then (MTMQ_RC_TIMEDOUT, some q2)
      else if rc = EINTR then (MTMQ_RC_INTERRUPTED, some q2)
      else (MTMQ_RC_ERROR, some q2)

/-- `mtmq_pop`: returns the result code, the element written through the
`code` / `data` out-parameters (written only on the `MTMQ_RC_OK` path,
hence `Option`), and the queue state after the call.  Oracles as in
`mtmq_push`; the wait-loop predicate here is `!num && !fin`.  Note the
element-available check `if (q->num)` comes before the `finalized` check.
On success the element at `first` is read, `first` advances modulo `size`,
`num` is decremented, and a waiting writer is signalled (no state
effect). -/
def mtmq_pop (q : Option mtmq) (timeout : Int)
    (lock_rc wait_rc : Int) : Int × Option mtmq_elt × Option mtmq :=
  match q with
  | none => (MTMQ_RC_ERROR, none, none)
  | some q0 =>
    if lock_rc ≠ 0 then (MTMQ_RC_ERROR, none, some q0)
    else
      let q1 : mtmq := { q0 with num_rd := q0.num_rd + 1 }
      let rc : Int := if q1.num == 0 && !q1.fin then wait_rc else 0
      let q2 : mtmq := { q1 with num_rd := q1.num_rd - 1 }
      if q2.num ≠ 0 then
        let e : mtmq_elt := q2.arr.getD q2.first ⟨0, 0⟩
        let q3 : mtmq := { q2 with
          first := if q2.first + 1 < q2.size then q2.first + 1 else 0,
          num := q2.num - 1 }
        (MTMQ_RC_OK, some e, some q3)
      else if q2.fin then (MTMQ_RC_FINALIZED, none, some q2)
      else if rc = ETIMEDOUT then (MTMQ_RC_TIMEDOUT, none, some q2)
      else if rc = EINTR then (MTMQ_RC_INTERRUPTED, none, some q2)
      else (MTMQ_RC_ERROR, none, some q2)

/-- `mtmq_finalize`: NULL is a no-op; otherwise, under the lock, if not yet
finalized the flag is set and both condition variables are broadcast (no
state effect); a second call finds `fin` already set and does nothing. -/
def mtmq_finalize (q : Option mtmq) : Option mtmq :=
  match q with
  | none => none
  | some q0 => if !q0.fin then some { q0 with fin := true } else some q0

/-- `mtmq_is_finalized`: `ret` starts at 1; only a non-NULL handle is
dereferenced (under the lock) to read `fin`; so NULL reports 1. -/
def mtmq_is_finalized (q : Option mtmq) : Int :=
  match q with
  | none => 1
  | some q0 => if q0.fin then 1 else 0

/-- The buffered elements in queue (FIFO) order: `num` elements starting at
index `first`, wrapping modulo `size`. -/
def toList (q : mtmq) : List mtmq_elt :=
  (List.range q.num).map fun i => q.arr.getD ((q.first + i) % q.size) ⟨0, 0⟩

/-- The circular-buffer index invariant of the spec: `count ≤ capacity`,
`head` and `tail` in `[0, capacity)`, and `count` congruent to
`(tail - head)` modulo `capacity` (phrased additively:
`(head + count) % capacity = tail`; counts are `Nat`, so `0 ≤ count` holds
by construction, mirroring that the C code never decrements `num` below
0 nor `first`/`last` outside the array). -/
def QueueInv (q : mtmq) : Prop :=
  q.num ≤ q.size ∧ q.first < q.size ∧ q.last < q.size ∧
    (q.first + q.num) % q.size = q.last

/-- Well-formedness: the elements array has exactly `size` slots (as
allocated by `mtmq_create`) and the index invariant holds. -/
def WF (q : mtmq) : Prop := q.arr.length = q.size ∧ QueueInv q

instance (q : mtmq) : Decidable (QueueInv q) := by
  unfold QueueInv; infer_instance

instance (q : mtmq) : Decidable (WF q) := by
  unfold WF; infer_instance

/-- A single sequential call to the queue, with its oracle parameters. -/
inductive QOp where
  | push (code data timeout lock_rc wait_rc : Int)
  | pop (timeout lock_rc wait_rc : Int)

/-- Run a sequence of sequential calls, collecting the `(code, data)` pairs
accepted by successful pushes and the pairs delivered by successful pops,
in call order, together with the final queue state. -/
def run (q : Option mtmq) :
    List QOp → List mtmq_elt × List mtmq_elt × Option mtmq
  | [] => ([], [], q)
  | QOp.push c d t l w :: ops =>
    let r := mtmq_push q c d t l w
    let rest := run r.2 ops
    (if r.1 = MTMQ_RC_OK then ⟨c, d⟩ :: rest.1 else rest.1, rest.2.1, rest.2.2)
  | QOp.pop t l w :: ops =>
    let r := mtmq_pop q t l w
    let rest := run r.2.2 ops
    match r.2.1 with
    | some e => (rest.1, e :: rest.2.1, rest.2.2)
    | none => (rest.1, rest.2.1, rest.2.2)

/-- Pop repeatedly (with fixed oracle arguments) until a pop fails to
deliver an element, returning the delivered elements in order and the
result code of the first non-delivering pop.  `fuel` bounds the number of
calls; exhausting it returns `MTMQ_RC_ERROR`. -/
def drain (t l w : Int) : Option mtmq → Nat → List mtmq_elt × Int
  | _, 0 => ([], MTMQ_RC_ERROR)
  | q, fuel + 1 =>
    match mtmq_pop q t l w with
    | (_, some e, q1) =>
      let rest := drain t l w q1 fuel
      (e :: rest.1, rest.2)
    | (rc, none, _) => ([], rc)

/-- The state map performed by the success branch of `mtmq_push` (lines
185-189 of `mtmq.c`): write the element at `last`, advance `last` modulo
`size`, increment `num`. -/
def enq (q : mtmq) (code data : Int) : mtmq :=
  { q with arr := q.arr.set q.last ⟨code, data⟩,
           last := if q.last + 1 < q.size then q.last + 1 else 0,
           num := q.num + 1 }

/-- The state map performed by the success branch of `mtmq_pop` (lines
252-256 of `mtmq.c`): advance `first` modulo `size`, decrement `num`. -/
def deq (q : mtmq) : mtmq :=
  { q with first := if q.first + 1 < q.size then q.first + 1 else 0,
           num := q.num - 1 }

/-- A convenient concrete queue: capacity-2, empty, already finalized. -/
def qEmptyFin : mtmq :=
  { num_rd := 0, num_wr := 0, fin := true, num := 0, first := 0,
    last := 0, size := 2, arr := [⟨0, 0⟩, ⟨0, 0⟩] }

/-- A convenient concrete queue: capacity-2, holding the single element
`(5, 50)`, already finalized. -/
def qOneFin : mtmq :=
  { num_rd := 0, num_wr := 0, fin := true, num := 1, first := 0,
    last := 1, size := 2, arr := [⟨5, 50⟩, ⟨0, 0⟩] }

/-- A convenient concrete queue: the capacity-2 queue after the sequential
calls push (1,10), push (2,20), pop, pop. -/
def qRound2 : mtmq :=
  { num_rd := 0, num_wr := 0, fin := false, num := 0, first := 0,
    last := 0, size := 2, arr := [⟨1, 10⟩, ⟨2, 20⟩] }

/-- A convenient concrete queue: capacity-2, freshly created. -/
def qFresh2 : mtmq :=
  { num_rd := 0, num_wr := 0, fin := false, num := 0, first := 0,
    last := 0, size := 2, arr := [⟨0, 0⟩, ⟨0, 0⟩] }

/-- `qFresh2` after a successful push of `(1, 10)`. -/
def qFresh2Pushed : mtmq :=
  { num_rd := 0, num_wr := 0, fin := false, num := 1, first := 0,
    last := 1, size := 2, arr := [⟨1, 10⟩, ⟨0, 0⟩] }

/-- `qOneFin` after its single element has been popped. -/
def qOneFinPopped : mtmq :=
  { num_rd := 0, num_wr := 0, fin := true, num := 0, first := 1,
    last := 1, size := 2, arr := [⟨5, 50⟩, ⟨0, 0⟩] }

/-- `qFresh2` after `mtmq_finalize`. -/
def qFresh2Fin : mtmq :=
  { num_rd := 0, num_wr := 0, fin := true, num := 0, first := 0,
    last := 0, size := 2, arr := [⟨0, 0⟩, ⟨0, 0⟩] }

/- ------------------------------------------------------------------ -/
/- Helper lemmas about single calls                                    -/
/- ------------------------------------------------------------------ -/

theorem mtmq_push_fin (q : mtmq) (c d t w : Int) (hf : q.fin = true) :
    mtmq_push (some q) c d t 0 w = (MTMQ_RC_FINALIZED, some q) := by
  cases q
  simp_all [mtmq_push]

theorem mtmq_push_ok (q : mtmq) (c d t w : Int) (hf : q.fin = false)
    (hn : q.num < q.size) :
    mtmq_push (some q) c d t 0 w = (MTMQ_RC_OK, some (enq q c d)) := by
  cases q
  simp_all [mtmq_push, enq]

theorem mtmq_push_ne_ok (q : mtmq) (c d t l w : Int)
    (h : (mtmq_push (some q) c d t l w).1 ≠ MTMQ_RC_OK) :
    (mtmq_push (some q) c d t l w).2 = some q := by
  cases q
  simp only [mtmq_push] at h ⊢
  split_ifs at h ⊢ <;>
    simp_all [MTMQ_RC_OK, MTMQ_RC_FINALIZED, MTMQ_RC_TIMEDOUT,
      MTMQ_RC_INTERRUPTED, MTMQ_RC_ERROR, ETIMEDOUT, EINTR]

theorem mtmq_push_of_ok (q : mtmq) (c d t l w : Int)
    (h : (mtmq_push (some q) c d t l w).1 = MTMQ_RC_OK) :
    q.fin = false ∧ q.num < q.size ∧
      (mtmq_push (some q) c d t l w).2 = some (enq q c d) := by
  cases q
  simp only [mtmq_push, enq] at h ⊢
  split_ifs at h ⊢ <;>
    simp_all [MTMQ_RC_OK, MTMQ_RC_FINALIZED, MTMQ_RC_TIMEDOUT,
      MTMQ_RC_INTERRUPTED, MTMQ_RC_ERROR, ETIMEDOUT, EINTR]

theorem mtmq_pop_ok (q : mtmq) (t w : Int) (hn : q.num ≠ 0) :
    mtmq_pop (some q) t 0 w =
      (MTMQ_RC_OK, some (q.arr.getD q.first ⟨0, 0⟩), some (deq q)) := by
  cases q
  simp_all [mtmq_pop, deq]

theorem mtmq_pop_fin (q : mtmq) (t w : Int) (hn : q.num = 0)
    (hf : q.fin = true) :
    mtmq_pop (some q) t 0 w = (MTMQ_RC_FINALIZED, none, some q) := by
  cases q
  simp_all [mtmq_pop]

theorem mtmq_pop_none (q : mtmq) (t l w : Int) (e : mtmq_elt)
    (h : (mtmq_pop (some q) t l w).2.1 = none) :
    (mtmq_pop (some q) t l w).1 ≠ MTMQ_RC_OK ∧
      (mtmq_pop (some q) t l w).2.2 = some q := by
  cases q
  simp only [mtmq_pop] at h ⊢
  split_ifs at h ⊢ <;>
    simp_all [MTMQ_RC_OK, MTMQ_RC_FINALIZED, MTMQ_RC_TIMEDOUT,
      MTMQ_RC_INTERRUPTED, MTMQ_RC_ERROR, ETIMEDOUT, EINTR]

theorem mtmq_pop_some (q : mtmq) (t l w : Int) (e : mtmq_elt)
    (h : (mtmq_pop (some q) t l w).2.1 = some e) :
    q.num ≠ 0 ∧ e = q.arr.getD q.first ⟨0, 0⟩ ∧
      (mtmq_pop (some q) t l w).1 = MTMQ_RC_OK ∧
      (mtmq_pop (some q) t l w).2.2 = some (deq q) := by
  cases q
  simp only [mtmq_pop, deq] at h ⊢
  split_ifs at h ⊢ <;> simp_all

/- ------------------------------------------------------------------ -/
/- Helper lemmas about the circular-buffer abstraction                 -/
/- ------------------------------------------------------------------ -/

theorem succ_idx_mod (i n : Nat) (h : i < n) :
    (if i + 1 < n then i + 1 else 0) = (i + 1) % n := by
  split_ifs with h1
  · exact (Nat.mod_eq_of_lt h1).symm
  · have hn : i + 1 = n := by omega
    simp [hn]

theorem idx_ne_of_lt (first i num size : Nat) (hi : i < num) (hn : num < size) :
    (first + i) % size ≠ (first + num) % size := by
  intro hEq
  have h2 : i % size = num % size := Nat.ModEq.add_left_cancel' first hEq
  rw [Nat.mod_eq_of_lt (by omega), Nat.mod_eq_of_lt hn] at h2
  omega

theorem toList_nil (q : mtmq) (h : q.num = 0) : toList q = [] := by
  simp [toList, h]

theorem WF_enq (q : mtmq) (c d : Int) (h : WF q) (hn : q.num < q.size) :
    WF (enq q c d) := by
  unfold WF QueueInv at h ⊢
  obtain ⟨hlen, hnum, hfst, hlst, hmod⟩ := h
  unfold enq
  refine ⟨by simpa using hlen, by simpa using by omega, by simpa using hfst,
    ?_, ?_⟩
  · simp only
    split_ifs with h1
    · exact h1
    · omega
  · simp only [succ_idx_mod q.last q.size hlst]
    rw [← hmod, ← Nat.add_assoc, Nat.mod_add_mod]

theorem WF_deq (q : mtmq) (h : WF q) (hn : q.num ≠ 0) : WF (deq q) := by
  unfold WF QueueInv at h ⊢
  obtain ⟨hlen, hnum, hfst, hlst, hmod⟩ := h
  unfold deq
  refine ⟨by simpa using hlen, by simpa using by omega, ?_, by simpa using hlst,
    ?_⟩
  · simp only
    split_ifs with h1
    · exact h1
    · omega
  · simp only [succ_idx_mod q.first q.size hfst]
    rw [Nat.mod_add_mod, ← hmod]
    congr 1
    omega

theorem toList_enq (q : mtmq) (c d : Int) (h : WF q) (hn : q.num < q.size) :
    toList (enq q c d) = toList q ++ [⟨c, d⟩] := by
  unfold WF QueueInv at h
  obtain ⟨hlen, hnum, hfst, hlst, hmod⟩ := h
  unfold toList enq
  simp only [List.range_succ, List.map_append, List.map_cons, List.map_nil]
  congr 1
  · apply List.map_congr_left
    intro i hi
    rw [List.mem_range] at hi
    have hne : (q.first + i) % q.size ≠ q.last := by
      rw [← hmod]
      exact idx_ne_of_lt q.first i q.num q.size hi hn
    rw [List.getD_eq_getElem?_getD, List.getElem?_set_ne hne.symm,
      List.getD_eq_getElem?_getD]
  · have hidx : (q.first + q.num) % q.size = q.last := hmod
    rw [hidx, List.getD_eq_getElem?_getD, List.getElem?_set_self',
      List.getElem?_eq_getElem (by omega)]
    rfl

theorem mtmq_create_some (c : Nat) (mk sk : Bool) (q : mtmq)
    (h : mtmq_create c mk sk = some q) :
    q = { num_rd := 0, num_wr := 0, fin := false, num := 0, first := 0,
          last := 0, size := c, arr := List.replicate c ⟨0, 0⟩ } := by
  unfold mtmq_create at h
  split_ifs at h
  simp only [Option.some.injEq] at h
  exact h.symm

theorem WF_create (c : Nat) (hc : 0 < c) (mk sk : Bool) (q : mtmq)
    (h : mtmq_create c mk sk = some q) :
    WF q ∧ toList q = [] ∧ q.fin = false := by
  rw [mtmq_create_some c mk sk q h]
  refine ⟨⟨by simp, ?_⟩, by simp [toList], rfl⟩
  unfold QueueInv
  refine ⟨by simp, by simpa using hc, by simpa using hc, by simp⟩

theorem toList_deq (q : mtmq) (h : WF q) (hn : q.num ≠ 0) :
    toList q = q.arr.getD q.first ⟨0, 0⟩ :: toList (deq q) := by
  unfold WF QueueInv at h
  obtain ⟨hlen, hnum, hfst, hlst, hmod⟩ := h
  obtain ⟨k, hk⟩ : ∃ k, q.num = k + 1 := ⟨q.num - 1, by omega⟩
  unfold toList deq
  simp only [hk, Nat.add_sub_cancel, List.range_succ_eq_map, List.map_cons,
    List.map_map]
  congr 1
  · rw [Nat.add_zero, Nat.mod_eq_of_lt hfst]
  · apply List.map_congr_left
    intro i hi
    simp only [Function.comp_apply, succ_idx_mod q.first q.size hfst,
      Nat.mod_add_mod]
    congr 2
    omega

theorem run_spec (ops : List QOp) :
    ∀ q : mtmq, WF q → ∀ ps qs qf,
      run (some q) ops = (ps, qs, qf) →
      ∃ q1, qf = some q1 ∧ WF q1 ∧ toList q ++ ps = qs ++ toList q1 := by
  induction ops with
  | nil =>
    intro q hq ps qs qf h
    simp only [run, Prod.mk.injEq] at h
    obtain ⟨rfl, rfl, rfl⟩ := h
    exact ⟨q, rfl, hq, by simp⟩
  | cons op rest ih =>
    intro q hq ps qs qf h
    cases op with
    | push c d t l w =>
      by_cases hr1 : (mtmq_push (some q) c d t l w).1 = MTMQ_RC_OK
      · obtain ⟨hfin, hnum, hst⟩ := mtmq_push_of_ok q c d t l w hr1
        simp only [run, hr1, hst, if_pos, Prod.mk.injEq] at h
        obtain ⟨rfl, rfl, rfl⟩ := h
        obtain ⟨q1, hq1, hwf1, heq⟩ :=
          ih (enq q c d) (WF_enq q c d hq hnum) _ _ _ rfl
        refine ⟨q1, hq1, hwf1, ?_⟩
        rw [← heq, toList_enq q c d hq hnum]
        simp
      · have hst := mtmq_push_ne_ok q c d t l w hr1
        simp only [run, hr1, hst, if_neg, Prod.mk.injEq, ite_false] at h
        obtain ⟨rfl, rfl, rfl⟩ := h
        exact ih q hq _ _ _ rfl
    | pop t l w =>
      rcases heo : (mtmq_pop (some q) t l w).2.1 with _ | e
      · obtain ⟨hr1, hst⟩ := mtmq_pop_none q t l w ⟨0, 0⟩ heo
        simp only [run, heo, hst, Prod.mk.injEq] at h
        obtain ⟨rfl, rfl, rfl⟩ := h
        exact ih q hq _ _ _ rfl
      · obtain ⟨hnum, he, hr1, hst⟩ := mtmq_pop_some q t l w e heo
        simp only [run, heo, hst, Prod.mk.injEq] at h
        obtain ⟨rfl, rfl, rfl⟩ := h
        obtain ⟨q1, hq1, hwf1, heq⟩ :=
          ih (deq q) (WF_deq q hq hnum) _ _ _ rfl
        refine ⟨q1, hq1, hwf1, ?_⟩
        rw [toList_deq q hq hnum, he]
        simp only [List.cons_append, heq]

theorem QueueInv_enq (q : mtmq) (c d : Int) (h : QueueInv q)
    (hn : q.num < q.size) : QueueInv (enq q c d) := by
  unfold QueueInv at h ⊢
  obtain ⟨hnum, hfst, hlst, hmod⟩ := h
  unfold enq
  refine ⟨by simpa using by omega, by simpa using hfst, ?_, ?_⟩
  · simp only
    split_ifs with h1
    · exact h1
    · omega
  · simp only [succ_idx_mod q.last q.size hlst]
    rw [← hmod, ← Nat.add_assoc, Nat.mod_add_mod]

theorem QueueInv_deq (q : mtmq) (h : QueueInv q) (hn : q.num ≠ 0) :
    QueueInv (deq q) := by
  unfold QueueInv at h ⊢
  obtain ⟨hnum, hfst, hlst, hmod⟩ := h
  unfold deq
  refine ⟨by simpa using by omega, ?_, by simpa using hlst, ?_⟩
  · simp only
    split_ifs with h1
    · exact h1
    · omega
  · simp only [succ_idx_mod q.first q.size hfst]
    rw [Nat.mod_add_mod, ← hmod]
    congr 1
    omega

theorem mtmq_pop_ne_ok (q : mtmq) (t l w : Int)
    (h : (mtmq_pop (some q) t l w).1 ≠ MTMQ_RC_OK) :
    (mtmq_pop (some q) t l w).2.1 = none ∧
      (mtmq_pop (some q) t l w).2.2 = some q := by
  cases q
  simp only [mtmq_pop] at h ⊢
  split_ifs at h ⊢ <;>
    simp_all [MTMQ_RC_OK, MTMQ_RC_FINALIZED, MTMQ_RC_TIMEDOUT,
      MTMQ_RC_INTERRUPTED, MTMQ_RC_ERROR, ETIMEDOUT, EINTR]

theorem mtmq_push_preserves_fin (q : mtmq) (c d t l w : Int) (q1 : mtmq)
    (h : (mtmq_push (some q) c d t l w).2 = some q1) : q1.fin = q.fin := by
  cases q
  simp only [mtmq_push] at h
  split_ifs at h <;> (simp at h; subst h; simp_all)

theorem mtmq_pop_preserves_fin (q : mtmq) (t l w : Int) (q1 : mtmq)
    (h : (mtmq_pop (some q) t l w).2.2 = some q1) : q1.fin = q.fin := by
  cases q
  simp only [mtmq_pop] at h
  split_ifs at h <;> (simp at h; subst h; simp_all)

theorem mtmq_finalize_sets_fin (q : mtmq) (q1 : mtmq)
    (h : mtmq_finalize (some q) = some q1) : q1.fin = true := by
  cases q
  simp only [mtmq_finalize] at h
  split_ifs at h <;> (simp at h; subst h; simp_all)

theorem mtmq_finalize_preserves_idx (q : mtmq) (q1 : mtmq)
    (h : mtmq_finalize (some q) = some q1) :
    q1.num = q.num ∧ q1.first = q.first ∧ q1.last = q.last ∧
      q1.size = q.size ∧ q1.arr = q.arr := by
  cases q
  simp only [mtmq_finalize] at h
  split_ifs at h <;> (simp at h; subst h; simp_all)

theorem mtmq_finalize_idem (qo : Option mtmq) :
    mtmq_finalize (mtmq_finalize qo) = mtmq_finalize qo := by
  rcases qo with _ | q
  · rfl
  · by_cases hf : q.fin <;> simp [mtmq_finalize, hf]

theorem drain_spec (t w : Int) :
    ∀ fuel : Nat, ∀ q : mtmq, WF q → q.fin = true → q.num < fuel →
      drain t 0 w (some q) fuel = (toList q, MTMQ_RC_FINALIZED) := by
  intro fuel
  induction fuel with
  | zero => intro q _ _ h; omega
  | succ n ih =>
    intro q hwf hfin hlt
    by_cases hn : q.num = 0
    · have hp := mtmq_pop_fin q t w hn hfin
      simp only [drain, hp]
      simp [toList_nil q hn]
    · have hp := mtmq_pop_ok q t w hn
      have hdeq : (deq q).num = q.num - 1 := rfl
      have hdf : (deq q).fin = q.fin := rfl
      have ihq := ih (deq q) (WF_deq q hwf hn) (by rw [hdf]; exact hfin)
        (by omega)
      simp only [drain, hp, ihq]
      rw [toList_deq q hwf hn]

/- ------------------------------------------------------------------ -/
/- Claim theorems                                                      -/
/- ------------------------------------------------------------------ -/

/-- Claim C1: for a single producer and single consumer used sequentially,
the sequence of `(code, payload)` pairs delivered by successful `mtmq_pop`
calls equals the sequence accepted by successful `mtmq_push` calls, in the
same order (FIFO).  Formally: running any sequence of sequential push/pop
calls on a freshly created queue of capacity `c ≥ 1` yields
`pushed = popped ++ still-buffered`; in particular the popped sequence is
a prefix of the pushed sequence, and once every accepted element has been
retrieved (`q1.num = 0`) the two sequences are equal. -/
theorem c1_spsc_fifo (c : Nat) (hc : 0 < c) (ops : List QOp)
    (ps qs : List mtmq_elt) (qf : Option mtmq)
    (h : run (mtmq_create c true true) ops = (ps, qs, qf)) :
    ∃ q1, qf = some q1 ∧ ps = qs ++ toList q1 ∧ (q1.num = 0 → ps = qs) := by
  have hcr : mtmq_create c true true =
      some { num_rd := 0, num_wr := 0, fin := false, num := 0, first := 0,
             last := 0, size := c, arr := List.replicate c ⟨0, 0⟩ } := by
    simp [mtmq_create]
  rw [hcr] at h
  obtain ⟨hwf, hnil, _⟩ := WF_create c hc true true _ hcr
  obtain ⟨q1, h1, _, heq⟩ := run_spec ops _ hwf ps qs qf h
  rw [hnil, List.nil_append] at heq
  exact ⟨q1, h1, heq,
    fun h0 => by rw [heq, toList_nil q1 h0, List.append_nil]⟩

/-- Claim C1 witness: a concrete capacity-2 round trip, push (1,10),
push (2,20), pop, pop. -/
theorem c1_spsc_fifo_witness :
    ∃ q1, (some qRound2 : Option mtmq) = some q1 ∧
      ([⟨1, 10⟩, ⟨2, 20⟩] : List mtmq_elt) = [⟨1, 10⟩, ⟨2, 20⟩] ++ toList q1 ∧
      (q1.num = 0 → ([⟨1, 10⟩, ⟨2, 20⟩] : List mtmq_elt) = [⟨1, 10⟩, ⟨2, 20⟩]) :=
  c1_spsc_fifo 2 (by decide)
    [QOp.push 1 10 (-1) 0 0, QOp.push 2 20 (-1) 0 0,
     QOp.pop 100 0 0, QOp.pop 100 0 0]
    [⟨1, 10⟩, ⟨2, 20⟩] [⟨1, 10⟩, ⟨2, 20⟩] (some qRound2) (by decide)

/-- Claim C2: on a finalized queue, while `count > 0`, `mtmq_pop` returns
Ok carrying the oldest buffered element (the finalized check comes after
the element-available check); once `count = 0` it returns Finalized
without entering the wait loop — the result is the same for every
`timeout` and for every value the wait could have produced (`w`); hence
draining a finalized queue delivers exactly the buffered elements, in
order, before the first Finalized. -/
theorem c2_finalized_pop_drains :
    (∀ (q : mtmq) (t w : Int), WF q → q.fin = true → q.num ≠ 0 →
      ∃ e q1, mtmq_pop (some q) t 0 w = (MTMQ_RC_OK, some e, some q1) ∧
        toList q = e :: toList q1) ∧
    (∀ (q : mtmq) (t w : Int), q.fin = true → q.num = 0 →
      mtmq_pop (some q) t 0 w = (MTMQ_RC_FINALIZED, none, some q)) ∧
    (∀ (q : mtmq) (t w : Int) (fuel : Nat), WF q → q.fin = true →
      q.num < fuel →
      drain t 0 w (some q) fuel = (toList q, MTMQ_RC_FINALIZED)) := by
  refine ⟨?_, ?_, ?_⟩
  · intro q t w hwf hfin hn
    exact ⟨_, _, mtmq_pop_ok q t w hn, toList_deq q hwf hn⟩
  · intro q t w hfin hn
    exact mtmq_pop_fin q t w hn hfin
  · intro q t w fuel hwf hfin hlt
    exact drain_spec t w fuel q hwf hfin hlt

/-- Claim C2 witness: the finalized one-element queue delivers its element
with Ok, the finalized empty queue answers Finalized for an arbitrary
timeout and wait outcome, and draining delivers everything then
Finalized. -/
theorem c2_finalized_pop_drains_witness :
    (∃ e q1, mtmq_pop (some qOneFin) 100 0 110 = (MTMQ_RC_OK, some e, some q1) ∧
      toList qOneFin = e :: toList q1) ∧
    mtmq_pop (some qEmptyFin) 100 0 110 =
      (MTMQ_RC_FINALIZED, none, some qEmptyFin) ∧
    drain 100 0 110 (some qOneFin) 2 = (toList qOneFin, MTMQ_RC_FINALIZED) :=
  ⟨c2_finalized_pop_drains.1 qOneFin 100 110 (by decide) (by decide) (by decide),
   c2_finalized_pop_drains.2.1 qEmptyFin 100 110 (by decide) (by decide),
   c2_finalized_pop_drains.2.2 qOneFin 100 110 2 (by decide) (by decide)
     (by decide)⟩

/-- Claim C3: on a finalized queue every `mtmq_push` returns Finalized and
leaves the state unchanged (no element is enqueued), for every code, data,
timeout and wait outcome — in particular also when `count < capacity`,
because the finalized check precedes the free-slot check. -/
theorem c3_push_after_finalize (q : mtmq) (c d t w : Int)
    (hf : q.fin = true) :
    mtmq_push (some q) c d t 0 w = (MTMQ_RC_FINALIZED, some q) :=
  mtmq_push_fin q c d t w hf

/-- Claim C3 witness: pushing onto the finalized capacity-2 queue holding
0 elements (so `count < capacity`) yields Finalized and no state change. -/
theorem c3_push_after_finalize_witness :
    mtmq_push (some qEmptyFin) 7 70 50 0 110 =
      (MTMQ_RC_FINALIZED, some qEmptyFin) :=
  c3_push_after_finalize qEmptyFin 7 70 50 110 (by decide)

/-- Claim C4: the circular-buffer invariant (`count ≤ capacity`, `head` and
`tail` in `[0, capacity)`, `count ≡ tail - head (mod capacity)`) is
established by `mtmq_create` for every capacity `c ≥ 1` and preserved by
every `mtmq_push`, `mtmq_pop` and `mtmq_finalize` call (for any oracle
outcomes); `mtmq_is_finalized` only reads the `fin` flag and is modelled
as a pure function producing no successor state, so it preserves the
invariant by construction. -/
theorem c4_queue_invariant :
    (∀ (c : Nat) (mk sk : Bool) (q : mtmq), 0 < c →
      mtmq_create c mk sk = some q → QueueInv q) ∧
    (∀ (q : mtmq) (cd dt t l w : Int) (q1 : mtmq), QueueInv q →
      (mtmq_push (some q) cd dt t l w).2 = some q1 → QueueInv q1) ∧
    (∀ (q : mtmq) (t l w : Int) (q1 : mtmq), QueueInv q →
      (mtmq_pop (some q) t l w).2.2 = some q1 → QueueInv q1) ∧
    (∀ (q q1 : mtmq), QueueInv q →
      mtmq_finalize (some q) = some q1 → QueueInv q1) := by
  refine ⟨?_, ?_, ?_, ?_⟩
  · intro c mk sk q hc h
    rw [mtmq_create_some c mk sk q h]
    unfold QueueInv
    refine ⟨by simp, by simpa using hc, by simpa using hc, by simp⟩
  · intro q cd dt t l w q1 hq h
    by_cases hr1 : (mtmq_push (some q) cd dt t l w).1 = MTMQ_RC_OK
    · obtain ⟨hfin, hnum, hst⟩ := mtmq_push_of_ok q cd dt t l w hr1
      rw [hst, Option.some.injEq] at h
      rw [← h]
      exact QueueInv_enq q cd dt hq hnum
    · have hst := mtmq_push_ne_ok q cd dt t l w hr1
      rw [hst, Option.some.injEq] at h
      rw [← h]
      exact hq
  · intro q t l w q1 hq h
    rcases heo : (mtmq_pop (some q) t l w).2.1 with _ | e
    · obtain ⟨_, hst⟩ := mtmq_pop_none q t l w ⟨0, 0⟩ heo
      rw [hst, Option.some.injEq] at h
      rw [← h]
      exact hq
    · obtain ⟨hnum, _, _, hst⟩ := mtmq_pop_some q t l w e heo
      rw [hst, Option.some.injEq] at h
      rw [← h]
      exact QueueInv_deq q hq hnum
  · intro q q1 hq h
    obtain ⟨h1, h2, h3, h4, _⟩ := mtmq_finalize_preserves_idx q q1 h
    unfold QueueInv at hq ⊢
    rw [h1, h2, h3, h4]
    exact hq

/-- Claim C4 witness: the invariant after creating a capacity-2 queue,
after a successful push onto it, after a successful pop from the finalized
one-element queue, and after finalizing the fresh queue. -/
theorem c4_queue_invariant_witness :
    QueueInv qFresh2 ∧ QueueInv qFresh2Pushed ∧ QueueInv qOneFinPopped ∧
      QueueInv qFresh2Fin :=
  ⟨c4_queue_invariant.1 2 true true qFresh2 (by decide) (by decide),
   c4_queue_invariant.2.1 qFresh2 1 10 (-1) 0 0 qFresh2Pushed
     (by decide) (by decide),
   c4_queue_invariant.2.2.1 qOneFin 100 0 110 qOneFinPopped
     (by decide) (by decide),
   c4_queue_invariant.2.2.2 qFresh2 qFresh2Fin (by decide) (by decide)⟩

/-- Claim C5: `mtmq_finalize` is idempotent (a second call leaves exactly
the state of the first) and the `finalized` flag is monotonic: once set,
no `mtmq_push`, `mtmq_pop` or `mtmq_finalize` call resets it
(`mtmq_is_finalized` is a pure read and produces no successor state, so it
cannot reset the flag by construction). -/
theorem c5_finalize_idem_monotonic :
    (∀ qo : Option mtmq, mtmq_finalize (mtmq_finalize qo) = mtmq_finalize qo) ∧
    (∀ (q : mtmq) (c d t l w : Int) (q1 : mtmq), q.fin = true →
      (mtmq_push (some q) c d t l w).2 = some q1 → q1.fin = true) ∧
    (∀ (q : mtmq) (t l w : Int) (q1 : mtmq), q.fin = true →
      (mtmq_pop (some q) t l w).2.2 = some q1 → q1.fin = true) ∧
    (∀ (q q1 : mtmq), q.fin = true →
      mtmq_finalize (some q) = some q1 → q1.fin = true) := by
  refine ⟨mtmq_finalize_idem, ?_, ?_, ?_⟩
  · intro q c d t l w q1 hf h
    rw [mtmq_push_preserves_fin q c d t l w q1 h, hf]
  · intro q t l w q1 hf h
    rw [mtmq_pop_preserves_fin q t l w q1 h, hf]
  · intro q q1 _ h
    exact mtmq_finalize_sets_fin q q1 h

/-- Claim C5 witness: finalizing the fresh capacity-2 queue twice equals
finalizing it once, and the flag survives a push, a pop and a second
finalize on the finalized empty queue. -/
theorem c5_finalize_idem_monotonic_witness :
    mtmq_finalize (mtmq_finalize (some qFresh2)) =
      mtmq_finalize (some qFresh2) ∧
    qEmptyFin.fin = true ∧ qOneFinPopped.fin = true ∧ qFresh2Fin.fin = true :=
  ⟨c5_finalize_idem_monotonic.1 (some qFresh2),
   c5_finalize_idem_monotonic.2.1 qEmptyFin 1 10 0 0 0 qEmptyFin
     (by decide) (by decide),
   c5_finalize_idem_monotonic.2.2.1 qOneFin 100 0 110 qOneFinPopped
     (by decide) (by decide),
   c5_finalize_idem_monotonic.2.2.2 qFresh2Fin qFresh2Fin
     (by decide) (by decide)⟩

/-- Claim C6 counterexample: `mtmq_create` called with capacity 0 does
not return a null handle — with `malloc` and the condattr setup
succeeding it returns a (non-null) queue handle, refuting the claim that
a zero capacity is rejected. -/
theorem c6_create_zero_counterexample : mtmq_create 0 true true ≠ none := by
  decide

/-- Claim C6 (amended): `mtmq_create` performs no validation of its
capacity argument; called with capacity 0 (and allocation and clock
attribute setup succeeding) it returns a non-null handle to a
zero-capacity queue (all fields zeroed, empty elements array). -/
theorem c6_create_zero_not_rejected :
    mtmq_create 0 true true =
      some { num_rd := 0, num_wr := 0, fin := false, num := 0, first := 0,
             last := 0, size := 0, arr := [] } := by
  decide

/-- Claim C7 counterexample: `mtmq_is_finalized` on a NULL handle does
not report an error: it returns 1 — the very value that, read as a result
code, is `MTMQ_RC_FINALIZED`, and in any case not `MTMQ_RC_ERROR` — so it
is not the case that a null handle is treated as Error by every public
operation. -/
theorem c7_null_is_finalized_counterexample :
    mtmq_is_finalized none = MTMQ_RC_FINALIZED ∧
      MTMQ_RC_FINALIZED ≠ MTMQ_RC_ERROR := by
  decide

/-- Claim C7 (amended): a NULL handle is never dereferenced; `mtmq_push`,
`mtmq_pop` and `mtmq_destroy` return `MTMQ_RC_ERROR` for it, while
`mtmq_finalize` returns immediately with no effect (it has no result to
report) and `mtmq_is_finalized` returns 1, i.e. reports the null handle
as finalized rather than as an error. -/
theorem c7_null_handle_behavior :
    (∀ c d t l w : Int, mtmq_push none c d t l w = (MTMQ_RC_ERROR, none)) ∧
    (∀ t l w : Int, mtmq_pop none t l w = (MTMQ_RC_ERROR, none, none)) ∧
    (∀ a b c : Int, mtmq_destroy none a b c = MTMQ_RC_ERROR) ∧
    mtmq_finalize none = none ∧
    mtmq_is_finalized none = 1 :=
  ⟨fun _ _ _ _ _ => rfl, fun _ _ _ => rfl, fun _ _ _ => rfl, rfl, rfl⟩

/-- Claim C8: for every non-negative `timeout_ms` (bounded by the C `int`
range) and every current time with `nsec ∈ [0, 10^9)`, `calc_abs_timeout`
returns the absolute time exactly `timeout_ms` milliseconds later, with
the nanosecond part normalized into `[0, 10^9)`; and the
milliseconds-to-nanoseconds product fits the 64-bit `long` in which the C
code computes it. -/
theorem c8_calc_abs_timeout_exact (sec nsec ms : Int)
    (h0 : 0 ≤ ms) (h1 : ms < 2 ^ 31) (h2 : 0 ≤ nsec)
    (h3 : nsec < 1000000000) :
    (calc_abs_timeout sec nsec ms).1 * 1000000000 +
        (calc_abs_timeout sec nsec ms).2 =
      sec * 1000000000 + nsec + ms * 1000000 ∧
    0 ≤ (calc_abs_timeout sec nsec ms).2 ∧
    (calc_abs_timeout sec nsec ms).2 < 1000000000 ∧
    -(2 ^ 63) ≤ ms * 1000000 ∧ ms * 1000000 < 2 ^ 63 := by
  unfold calc_abs_timeout
  simp only
  rw [Int.tdiv_eq_ediv (by omega) (by omega),
    Int.tmod_eq_emod (by omega) (by omega)]
  refine ⟨by omega, by omega, by omega, by omega, by omega⟩

/-- Claim C8 witness: at time (5 s, 999999999 ns) with a 1000 ms timeout. -/
theorem c8_calc_abs_timeout_exact_witness :
    (calc_abs_timeout 5 999999999 1000).1 * 1000000000 +
        (calc_abs_timeout 5 999999999 1000).2 =
      5 * 1000000000 + 999999999 + 1000 * 1000000 ∧
    0 ≤ (calc_abs_timeout 5 999999999 1000).2 ∧
    (calc_abs_timeout 5 999999999 1000).2 < 1000000000 ∧
    -(2 ^ 63) ≤ (1000 : Int) * 1000000 ∧ (1000 : Int) * 1000000 < 2 ^ 63 :=
  c8_calc_abs_timeout_exact 5 999999999 1000 (by decide) (by decide)
    (by decide) (by decide)

/-- Claim C9: whenever `mtmq_push` or `mtmq_pop` returns an outcome other
than `MTMQ_RC_OK`, the queue state it returns is exactly the state the
call began with (and a failed pop also writes nothing through its
out-parameters): a failed operation enqueues and dequeues nothing. -/
theorem c9_failed_op_state_unchanged :
    (∀ (q : mtmq) (c d t l w : Int),
      (mtmq_push (some q) c d t l w).1 ≠ MTMQ_RC_OK →
      (mtmq_push (some q) c d t l w).2 = some q) ∧
    (∀ (q : mtmq) (t l w : Int),
      (mtmq_pop (some q) t l w).1 ≠ MTMQ_RC_OK →
      (mtmq_pop (some q) t l w).2.1 = none ∧
        (mtmq_pop (some q) t l w).2.2 = some q) :=
  ⟨mtmq_push_ne_ok, mtmq_pop_ne_ok⟩

/-- Claim C9 witness: a push and a pop on the finalized empty queue both
return Finalized (≠ Ok) and leave the state untouched. -/
theorem c9_failed_op_state_unchanged_witness :
    (mtmq_push (some qEmptyFin) 1 10 0 0 0).2 = some qEmptyFin ∧
    (mtmq_pop (some qEmptyFin) 0 0 0).2.1 = none ∧
      (mtmq_pop (some qEmptyFin) 0 0 0).2.2 = some qEmptyFin :=
  ⟨c9_failed_op_state_unchanged.1 qEmptyFin 1 10 0 0 0 (by decide),
   c9_failed_op_state_unchanged.2 qEmptyFin 0 0 0 (by decide)⟩

/-- Claim C10: `mtmq_is_finalized` called with a NULL queue handle returns
1 (true): `ret` is initialized to 1 and only overwritten when the handle
is non-null, so a null queue reports itself as finalized. -/
theorem c10_is_finalized_null : mtmq_is_finalized none = 1 := rfl
